import Mathlib

/-!
Shallow embedding of the task-manager-bot core subsystems: the transactional
ledger (`cogs/central_bank/cog_db_functions.py`), the usage counter
(`cogs/stats/cog_db_functions.py`), the config resolver
(`cogs/base_cog.py`, `BaseCog._load_config`), and the module registry
(`main.py`, `TaskManagerBot.load_all_cogs`).

The SQLite store is modelled as explicit state: a `DB` record holding the
`users`, `balances` and `command_usage` tables as lists of rows.  Each
operation takes a `conn : Bool` flag modelling whether
`core.get_db_connection()` returned a connection (`false` = the store is
unreachable), mirroring the `if not conn: return <degraded value>` guards.
-/

/-- Python's `str.lower()`, applied by every ledger operation to the
`currency` argument before any lookup or write: lower-case each character. -/
def strLower (s : String) : String := ⟨s.data.map Char.toLower⟩

/-- A row of the `balances` table: `(user_id, currency, amount)`,
primary key `(user_id, currency)`. -/
structure BalRow where
  user_id : Int
  currency : String
  amount : Int
deriving DecidableEq, Repr

/-- A row of the `command_usage` table: `(command_name, usage_count)`,
primary key `command_name`. -/
structure UsageRow where
  command_name : String
  usage_count : Int
deriving DecidableEq, Repr

/-- The persisted state: the three tables of the SQLite database. -/
structure DB where
  users : List Int
  balances : List BalRow
  commandUsage : List UsageRow
deriving DecidableEq, Repr

/-- `SELECT amount FROM balances WHERE user_id = u AND currency = c`
(first matching row, as the key is unique in any reachable state). -/
def lookupBalance : List BalRow → Int → String → Option Int
  | [], _, _ => none
  | r :: rs, u, c =>
    if r.user_id = u ∧ r.currency = c then some r.amount else lookupBalance rs u c

/-- Whether a `balances` row with the given key exists. -/
def containsBalance (bs : List BalRow) (u : Int) (c : String) : Bool :=
  (lookupBalance bs u c).isSome

/-- `INSERT OR IGNORE INTO balances VALUES (u, c, v)`. -/
def insertOrIgnoreBalance (bs : List BalRow) (u : Int) (c : String) (v : Int) : List BalRow :=
  if containsBalance bs u c then bs else bs ++ [⟨u, c, v⟩]

/-- `UPDATE balances SET amount = amount + d WHERE user_id = u AND currency = c`. -/
def addToRows (bs : List BalRow) (u : Int) (c : String) (d : Int) : List BalRow :=
  bs.map fun r =>
    if r.user_id = u ∧ r.currency = c then { r with amount := r.amount + d } else r

/-- `INSERT OR IGNORE INTO users (user_id) VALUES (u)`
(`core._ensure_user_exists`). -/
def insertOrIgnoreUser (us : List Int) (u : Int) : List Int :=
  if u ∈ us then us else us ++ [u]

/-- `get_balance` from `cogs/central_bank/cog_db_functions.py`: ensures the
user exists, reads the balance for the lower-cased currency, inserting a
zero row when absent; returns the balance (0 when the row was just created
or the store is unreachable) together with the committed state. -/
def get_balance (conn : Bool) (db : DB) (user_id : Int) (currency : String) : Int × DB :=
  if conn = false then (0, db)
  else
    let db1 : DB := { db with users := insertOrIgnoreUser db.users user_id }
    let cl := strLower currency
    match lookupBalance db1.balances user_id cl with
    | some a => (a, db1)
    | none => (0, { db1 with balances := db1.balances ++ [⟨user_id, cl, 0⟩] })

/-- `update_balance` from `cogs/central_bank/cog_db_functions.py`: ensures
user and balance rows exist, then applies `amount += amount_change`. -/
def update_balance (conn : Bool) (db : DB) (user_id : Int) (currency : String)
    (amount_change : Int) : DB :=
  if conn = false then db
  else
    let db1 : DB := { db with users := insertOrIgnoreUser db.users user_id }
    let cl := strLower currency
    let bs1 := insertOrIgnoreBalance db1.balances user_id cl 0
    { db1 with balances := addToRows bs1 user_id cl amount_change }

/-- `transfer_currency` from `cogs/central_bank/cog_db_functions.py`.
Rejects non-positive amounts before touching the store; on the
insufficient-funds path the function returns inside the `try` block without
committing, so closing the connection rolls back the pending user inserts
and the state is exactly the state at entry. -/
def transfer_currency (conn : Bool) (db : DB) (payer_id recipient_id : Int)
    (amount : Int) (currency : String) : Bool × DB :=
  if amount ≤ 0 then (false, db)
  else if conn = false then (false, db)
  else
    let cl := strLower currency
    let users1 := insertOrIgnoreUser (insertOrIgnoreUser db.users payer_id) recipient_id
    let current := (lookupBalance db.balances payer_id cl).getD 0
    if current < amount then (false, db)
    else
      let bs1 := addToRows db.balances payer_id cl (-amount)
      let bs2 := insertOrIgnoreBalance bs1 recipient_id cl 0
      let bs3 := addToRows bs2 recipient_id cl amount
      (true, { db with users := users1, balances := bs3 })

/-- `INSERT INTO command_usage VALUES (n, 1) ON CONFLICT(command_name) DO
UPDATE SET usage_count = usage_count + 1`. -/
def upsertUsage : List UsageRow → String → List UsageRow
  | [], n => [⟨n, 1⟩]
  | r :: rs, n =>
    if r.command_name = n then { r with usage_count := r.usage_count + 1 } :: rs
    else r :: upsertUsage rs n

/-- `track_command_usage` from `cogs/stats/cog_db_functions.py`. -/
def track_command_usage (conn : Bool) (db : DB) (command_name : String) : DB :=
  if conn = false then db
  else { db with commandUsage := upsertUsage db.commandUsage command_name }

/-- `get_all_command_usage` from `cogs/stats/cog_db_functions.py`: the
mapping of command names to counts, empty when the store is unreachable. -/
def get_all_command_usage (conn : Bool) (db : DB) : List (String × Int) :=
  if conn = false then []
  else db.commandUsage.map fun r => (r.command_name, r.usage_count)

/-- `reset_all_command_usage` from `cogs/stats/cog_db_functions.py`:
executes `DELETE FROM command_usage`, removing every row. -/
def reset_all_command_usage (conn : Bool) (db : DB) : DB :=
  if conn = false then db
  else { db with commandUsage := [] }

/-- Outcome of the `/pay` command in `cogs/central_bank/central_bank.py`. -/
inductive PayOutcome
  | self_payment_error
  | payment_successful
  | payment_failed
deriving DecidableEq, Repr

/-- `CentralBank.pay`: tracks usage, rejects self-payment before calling the
store, otherwise delegates to `transfer_currency`. -/
def pay (conn : Bool) (db : DB) (payer_id recipient_id : Int) (amount : Int)
    (currency : String) : PayOutcome × DB :=
  let db0 := track_command_usage conn db "pay"
  if payer_id = recipient_id then (PayOutcome.self_payment_error, db0)
  else
    let res := transfer_currency conn db0 payer_id recipient_id amount currency
    (if res.1 then PayOutcome.payment_successful else PayOutcome.payment_failed, res.2)

/-- The balance the store would read for `(u, currency)` before lower-casing
is applied by the caller: the amount of the first row keyed
`(u, strLower currency)`, defaulting to 0. -/
def balanceOf (db : DB) (u : Int) (currency : String) : Int :=
  (lookupBalance db.balances u (strLower currency)).getD 0

/-- The key `(user_id, currency)` of a `balances` row. -/
def keyOf (r : BalRow) : Int × String := (r.user_id, r.currency)

/-- The list of `balances` keys. -/
def balKeys (bs : List BalRow) : List (Int × String) := bs.map keyOf

/-- Well-formedness of the store: the `PRIMARY KEY (user_id, currency)`
constraint — no two `balances` rows share a key. -/
def DB.WF (db : DB) : Prop := (balKeys db.balances).Nodup

instance (db : DB) : Decidable db.WF :=
  inferInstanceAs (Decidable (balKeys db.balances).Nodup)

/-- The sum over all rows of a given (already lower-cased) currency of their
amounts: the total money supply in that denomination. -/
def sumCur : List BalRow → String → Int
  | [], _ => 0
  | r :: rs, c => (if r.currency = c then r.amount else 0) + sumCur rs c

/-- The number of `balances` rows with key `(u, c)`. -/
def countKey : List BalRow → Int → String → Nat
  | [], _, _ => 0
  | r :: rs, u, c => (if r.user_id = u ∧ r.currency = c then 1 else 0) + countKey rs u c

/-- Runs a sequence of `transfer_currency` calls (payer, recipient, amount)
in one denomination; yields the final state if every call returned `true`,
and `none` as soon as one returns `false`. -/
def applyTransfers (db : DB) (currency : String) : List (Int × Int × Int) → Option DB
  | [] => some db
  | (p, r, a) :: rest =>
    let res := transfer_currency true db p r a currency
    if res.1 then applyTransfers res.2 currency rest else none

/-- A JSON scalar stored in a cog's configuration: `null` or a scalar
rendered as a string (the merge logic never inspects the value). -/
inductive ConfigValue
  | null
  | str (s : String)
deriving DecidableEq, Repr

/-- A Python `dict` with string keys, as an insertion-ordered association
list (keys unique in any dict produced by `json.load` or the resolver). -/
abbrev ConfigDict := List (String × ConfigValue)

/-- Python `d.get(k)` / `k in d`: the value at the first matching key. -/
def dictGet : ConfigDict → String → Option ConfigValue
  | [], _ => none
  | (k0, v0) :: rest, k => if k0 = k then some v0 else dictGet rest k

/-- Python `k in d`. -/
def dictContains (m : ConfigDict) (k : String) : Bool := (dictGet m k).isSome

/-- Python `d[k] = v`: replace in place when the key exists, else append. -/
def dictInsert : ConfigDict → String → ConfigValue → ConfigDict
  | [], k, v => [(k, v)]
  | (k0, v0) :: rest, k, v =>
    if k0 = k then (k0, v) :: rest else (k0, v0) :: dictInsert rest k v

/-- `BaseCog.default_config` from `cogs/base_cog.py` (`envFooterIcon` is
`os.getenv("ICON_URL_FOOTER", "")`). -/
def default_config (cog_name envFooterIcon : String) : ConfigDict :=
  [("author_name", .str cog_name),
   ("author_icon_url", .str ""),
   ("footer_text", .str "Task Manager Bot"),
   ("footer_icon_url", .str envFooterIcon),
   ("color", .str "0xCCCCCC"),
   ("log_level", .str "INFO"),
   ("database_module", .null)]

/-- `BaseCog._load_config` from `cogs/base_cog.py`.  `fileContents` is
`some cfg` when `config.json` opened and parsed to the dict `cfg`, and
`none` when the file is absent or `json.load` raised — in which case the
defaults are returned verbatim.  On the success path every default key
missing from the file is inserted, then `config['footer_icon_url'] =
config.get('footer_icon_url', os.getenv("ICON_URL_FOOTER", ""))` is
replayed. -/
def load_config (defaults : ConfigDict) (fileContents : Option ConfigDict)
    (envFooterIcon : String) : ConfigDict :=
  match fileContents with
  | none => defaults
  | some config =>
    let merged := defaults.foldl
      (fun c kv => if dictContains c kv.1 then c else dictInsert c kv.1 kv.2) config
    dictInsert merged "footer_icon_url"
      ((dictGet merged "footer_icon_url").getD (.str envFooterIcon))

/-- One entry of `os.listdir('cogs')` with its `os.path.isdir` status. -/
structure DirEntry where
  name : String
  isDir : Bool
deriving DecidableEq, Repr

/-- Per-module load outcome recorded by the registry loop. -/
inductive LoadStatus
  | loaded
  | failed (cause : String)
deriving DecidableEq, Repr

/-- The outcome of one `await self.load_extension(...)` call. -/
def statusOf : Except String Unit → LoadStatus
  | .ok _ => .loaded
  | .error e => .failed e

/-- `excluded_cogs = {'cog_template'}` in `main.py`. -/
def excluded_cogs : List String := ["cog_template"]

/-- `sorted()` on directory-entry names (Python's stable lexicographic
sort, embedded as insertion sort on `String`'s lexicographic order). -/
def entryLE (a b : DirEntry) : Prop := a.name ≤ b.name

instance : DecidableRel entryLE := fun a b => inferInstanceAs (Decidable (a.name ≤ b.name))

instance : IsTotal DirEntry entryLE := ⟨fun a b => le_total a.name b.name⟩

instance : IsTrans DirEntry entryLE := ⟨fun _ _ _ h h' => le_trans h h'⟩

/-- One iteration of the `load_all_cogs` loop body over the accumulated
(log, loaded_count) pair: skip non-directories, dunder names and excluded
cogs; otherwise attempt the load, recording the outcome and counting
successes, with any exception caught. -/
def processEntry (load_extension : String → Except String Unit)
    (acc : List (String × LoadStatus) × Nat) (e : DirEntry) :
    List (String × LoadStatus) × Nat :=
  if e.isDir && !(e.name.startsWith "__") then
    if excluded_cogs.contains e.name then acc
    else
      match load_extension e.name with
      | .ok _ => (acc.1 ++ [(e.name, .loaded)], acc.2 + 1)
      | .error msg => (acc.1 ++ [(e.name, .failed msg)], acc.2)
  else acc

/-- `TaskManagerBot.load_all_cogs` from `main.py`: iterate the sorted
directory listing; skip non-directories, dunder names and excluded cogs;
try to load each remaining cog, catching any exception and continuing.
The returned list records, in processing order, each attempted cog and its
outcome (the information the loop logs), together with `loaded_count`. -/
def load_all_cogs (entries : List DirEntry) (load_extension : String → Except String Unit) :
    List (String × LoadStatus) × Nat :=
  (List.insertionSort entryLE entries).foldl (processEntry load_extension) ([], 0)

/-- An entry survives the loop's guards iff it is a directory, not a dunder
name, and not statically excluded. -/
def eligibleEntry (e : DirEntry) : Bool :=
  e.isDir && !(e.name.startsWith "__") && !(excluded_cogs.contains e.name)

/-- The record the loop appends for one eligible entry. -/
def loadOutcome (load_extension : String → Except String Unit) (e : DirEntry) :
    String × LoadStatus :=
  (e.name, statusOf (load_extension e.name))

/-! ### Helper lemmas about the row-list primitives -/

lemma lookupBalance_addToRows_self (bs : List BalRow) (u : Int) (c : String) (d : Int) :
    lookupBalance (addToRows bs u c d) u c = (lookupBalance bs u c).map (· + d) := by
  induction bs with
  | nil => rfl
  | cons r rs ih =>
    obtain ⟨ru, rc, ra⟩ := r
    by_cases h : ru = u ∧ rc = c
    · simp [addToRows, lookupBalance, h]
    · simp only [addToRows, List.map_cons, lookupBalance, if_neg h]
      simpa [addToRows] using ih

lemma addToRows_cancel (bs : List BalRow) (u : Int) (c : String) (a : Int) :
    addToRows (addToRows bs u c (-a)) u c a = bs := by
  induction bs with
  | nil => rfl
  | cons r rs ih =>
    obtain ⟨ru, rc, ra⟩ := r
    by_cases h : ru = u ∧ rc = c
    · simp only [addToRows, List.map_cons, if_pos h]
      simpa [addToRows, neg_add_cancel_right] using ih
    · simp only [addToRows, List.map_cons, if_neg h]
      simpa [addToRows] using ih

lemma lookupBalance_append_absent (bs : List BalRow) (u : Int) (c : String) (v : Int)
    (h : lookupBalance bs u c = none) :
    lookupBalance (bs ++ [⟨u, c, v⟩]) u c = some v := by
  induction bs with
  | nil => simp [lookupBalance]
  | cons r rs ih =>
    unfold lookupBalance at h ⊢
    by_cases hr : r.user_id = u ∧ r.currency = c
    · rw [if_pos hr] at h
      exact absurd h (by simp)
    · rw [if_neg hr] at h
      simpa [List.cons_append, lookupBalance, if_neg hr] using ih h

lemma lookupBalance_insertOrIgnore_self (bs : List BalRow) (u : Int) (c : String) (v : Int) :
    lookupBalance (insertOrIgnoreBalance bs u c v) u c =
      some ((lookupBalance bs u c).getD v) := by
  unfold insertOrIgnoreBalance containsBalance
  cases h : lookupBalance bs u c with
  | none => simp [h, lookupBalance_append_absent bs u c v h]
  | some a => simp [h]

lemma insertOrIgnoreBalance_of_contains (bs : List BalRow) (u : Int) (c : String) (v : Int)
    (h : containsBalance bs u c = true) : insertOrIgnoreBalance bs u c v = bs :=
  if_pos h

lemma lookupBalance_eq_none_of_user_absent (bs : List BalRow) (A : Int) (c : String)
    (h : ∀ r ∈ bs, r.user_id ≠ A) : lookupBalance bs A c = none := by
  induction bs with
  | nil => rfl
  | cons r rs ih =>
    unfold lookupBalance
    rw [if_neg fun hc => h r (List.mem_cons_self r rs) hc.1]
    exact ih fun r' hr' => h r' (List.mem_cons_of_mem r hr')

lemma mem_insertOrIgnoreUser_self (us : List Int) (u : Int) :
    u ∈ insertOrIgnoreUser us u := by
  unfold insertOrIgnoreUser
  split
  · assumption
  · simp

lemma insertOrIgnoreUser_of_mem (us : List Int) (u : Int) (h : u ∈ us) :
    insertOrIgnoreUser us u = us :=
  if_pos h

@[simp] lemma lookupBalance_nil (u : Int) (c : String) :
    lookupBalance [] u c = none := rfl

@[simp] lemma lookupBalance_cons (r : BalRow) (rs : List BalRow) (u : Int) (c : String) :
    lookupBalance (r :: rs) u c =
      if r.user_id = u ∧ r.currency = c then some r.amount else lookupBalance rs u c := rfl

@[simp] lemma sumCur_nil (c : String) : sumCur [] c = 0 := rfl

@[simp] lemma sumCur_cons (r : BalRow) (rs : List BalRow) (c : String) :
    sumCur (r :: rs) c = (if r.currency = c then r.amount else 0) + sumCur rs c := rfl

@[simp] lemma countKey_nil (u : Int) (c : String) : countKey [] u c = 0 := rfl

@[simp] lemma countKey_cons (r : BalRow) (rs : List BalRow) (u : Int) (c : String) :
    countKey (r :: rs) u c =
      (if r.user_id = u ∧ r.currency = c then 1 else 0) + countKey rs u c := rfl

@[simp] lemma addToRows_nil (u : Int) (c : String) (d : Int) :
    addToRows [] u c d = [] := rfl

@[simp] lemma addToRows_cons (r : BalRow) (rs : List BalRow) (u : Int) (c : String) (d : Int) :
    addToRows (r :: rs) u c d =
      (if r.user_id = u ∧ r.currency = c then { r with amount := r.amount + d } else r) ::
        addToRows rs u c d := rfl

@[simp] lemma balKeys_nil : balKeys [] = [] := rfl

@[simp] lemma balKeys_cons (r : BalRow) (rs : List BalRow) :
    balKeys (r :: rs) = keyOf r :: balKeys rs := rfl

lemma balKeys_addToRows (bs : List BalRow) (u : Int) (c : String) (d : Int) :
    balKeys (addToRows bs u c d) = balKeys bs := by
  induction bs with
  | nil => rfl
  | cons r rs ih =>
    by_cases h : r.user_id = u ∧ r.currency = c
    · simp [h, keyOf, ih]
    · simp [h, ih]

lemma sumCur_addToRows (bs : List BalRow) (u : Int) (c : String) (d : Int) :
    sumCur (addToRows bs u c d) c = sumCur bs c + d * countKey bs u c := by
  induction bs with
  | nil => simp
  | cons r rs ih =>
    by_cases h : r.user_id = u ∧ r.currency = c
    · simp only [addToRows_cons, if_pos h, sumCur_cons, countKey_cons]
      rw [if_pos h.2, if_pos h.2, ih]
      push_cast
      ring
    · simp only [addToRows_cons, if_neg h, sumCur_cons, countKey_cons, if_neg h, ih]
      push_cast
      ring

lemma sumCur_append_single (bs : List BalRow) (row : BalRow) (c : String) :
    sumCur (bs ++ [row]) c = sumCur bs c + (if row.currency = c then row.amount else 0) := by
  induction bs with
  | nil => simp
  | cons r rs ih =>
    rw [List.cons_append, sumCur_cons, sumCur_cons, ih]
    ring

lemma countKey_append_self (bs : List BalRow) (u : Int) (c : String) (v : Int) :
    countKey (bs ++ [⟨u, c, v⟩]) u c = countKey bs u c + 1 := by
  induction bs with
  | nil => simp
  | cons r rs ih =>
    rw [List.cons_append, countKey_cons, countKey_cons, ih]
    ring

lemma countKey_eq_zero_of_not_mem (bs : List BalRow) (u : Int) (c : String)
    (h : (u, c) ∉ balKeys bs) : countKey bs u c = 0 := by
  induction bs with
  | nil => rfl
  | cons r rs ih =>
    simp only [balKeys_cons, List.mem_cons, not_or] at h
    obtain ⟨h1, h2⟩ := h
    rw [countKey_cons, if_neg fun hc => h1 (by simp [keyOf, hc.1, hc.2]), ih h2]

lemma countKey_eq_zero_of_lookup_none (bs : List BalRow) (u : Int) (c : String)
    (h : lookupBalance bs u c = none) : countKey bs u c = 0 := by
  induction bs with
  | nil => rfl
  | cons r rs ih =>
    rw [lookupBalance_cons] at h
    by_cases hr : r.user_id = u ∧ r.currency = c
    · rw [if_pos hr] at h
      exact absurd h (by simp)
    · rw [if_neg hr] at h
      rw [countKey_cons, if_neg hr, ih h]

lemma not_mem_balKeys_of_lookup_none (bs : List BalRow) (u : Int) (c : String)
    (h : lookupBalance bs u c = none) : (u, c) ∉ balKeys bs := by
  induction bs with
  | nil => simp
  | cons r rs ih =>
    rw [lookupBalance_cons] at h
    by_cases hr : r.user_id = u ∧ r.currency = c
    · rw [if_pos hr] at h
      exact absurd h (by simp)
    · rw [if_neg hr] at h
      simp only [balKeys_cons, List.mem_cons, not_or]
      exact ⟨fun hc => hr ⟨(congrArg Prod.fst hc).symm, (congrArg Prod.snd hc).symm⟩, ih h⟩

lemma countKey_eq_one_of_nodup (bs : List BalRow) (u : Int) (c : String) (v : Int)
    (hnd : (balKeys bs).Nodup) (h : lookupBalance bs u c = some v) :
    countKey bs u c = 1 := by
  induction bs with
  | nil => cases h
  | cons r rs ih =>
    rw [balKeys_cons, List.nodup_cons] at hnd
    obtain ⟨hnot, hnd2⟩ := hnd
    rw [lookupBalance_cons] at h
    by_cases hr : r.user_id = u ∧ r.currency = c
    · rw [countKey_cons, if_pos hr,
        countKey_eq_zero_of_not_mem rs u c (by rw [show (u, c) = keyOf r by simp [keyOf, hr.1, hr.2]]; exact hnot)]
    · rw [if_neg hr] at h
      rw [countKey_cons, if_neg hr, ih hnd2 h]

lemma nodup_balKeys_append (bs : List BalRow) (u : Int) (c : String) (v : Int)
    (hnd : (balKeys bs).Nodup) (h : (u, c) ∉ balKeys bs) :
    (balKeys (bs ++ [⟨u, c, v⟩])).Nodup := by
  have heq : balKeys (bs ++ [⟨u, c, v⟩]) = balKeys bs ++ [(u, c)] := by
    simp [balKeys, keyOf]
  rw [heq, List.nodup_append]
  refine ⟨hnd, List.nodup_singleton _, fun x hx hmem => ?_⟩
  rw [List.mem_singleton] at hmem
  exact h (hmem ▸ hx)

/-- A successful `transfer_currency` preserves both the key-uniqueness
invariant and the total amount in the transferred denomination. -/
lemma transfer_success_aux (db : DB) (p r : Int) (a : Int) (c : String) (db' : DB)
    (hWF : db.WF) (h : transfer_currency true db p r a c = (true, db')) :
    db'.WF ∧ sumCur db'.balances (strLower c) = sumCur db.balances (strLower c) := by
  unfold transfer_currency at h
  by_cases ha : a ≤ 0
  · rw [if_pos ha] at h
    exact absurd (congrArg Prod.fst h) (by simp)
  rw [if_neg ha] at h
  simp only [Bool.true_eq_false, if_false] at h
  by_cases hlt : (lookupBalance db.balances p (strLower c)).getD 0 < a
  · rw [if_pos hlt] at h
    exact absurd (congrArg Prod.fst h) (by simp)
  rw [if_neg hlt] at h
  rw [Prod.mk.injEq] at h
  obtain ⟨-, h2⟩ := h
  subst h2
  set cl := strLower c with hcl
  obtain ⟨v, hv⟩ : ∃ v, lookupBalance db.balances p cl = some v := by
    cases hl : lookupBalance db.balances p cl with
    | none => rw [hl] at hlt; simp only [Option.getD_none] at hlt; omega
    | some v => exact ⟨v, rfl⟩
  have hcnt_p : countKey db.balances p cl = 1 :=
    countKey_eq_one_of_nodup db.balances p cl v hWF hv
  have hnd1 : (balKeys (addToRows db.balances p cl (-a))).Nodup := by
    rw [balKeys_addToRows]; exact hWF
  have hsum1 : sumCur (addToRows db.balances p cl (-a)) cl =
      sumCur db.balances cl + (-a) * 1 := by
    rw [sumCur_addToRows, hcnt_p]
    push_cast
    ring
  set bs1 := addToRows db.balances p cl (-a) with hbs1
  by_cases hc1 : containsBalance bs1 r cl = true
  · -- recipient row already present: the INSERT OR IGNORE is a no-op
    obtain ⟨w, hw⟩ : ∃ w, lookupBalance bs1 r cl = some w := by
      unfold containsBalance at hc1
      cases hl : lookupBalance bs1 r cl with
      | none => rw [hl] at hc1; simp at hc1
      | some w => exact ⟨w, rfl⟩
    have hcnt_r : countKey bs1 r cl = 1 :=
      countKey_eq_one_of_nodup bs1 r cl w hnd1 hw
    constructor
    · show (balKeys (addToRows (insertOrIgnoreBalance bs1 r cl 0) r cl a)).Nodup
      rw [insertOrIgnoreBalance_of_contains _ _ _ _ hc1, balKeys_addToRows]
      exact hnd1
    · show sumCur (addToRows (insertOrIgnoreBalance bs1 r cl 0) r cl a) cl =
        sumCur db.balances cl
      rw [insertOrIgnoreBalance_of_contains _ _ _ _ hc1, sumCur_addToRows, hcnt_r,
        hsum1]
      push_cast
      ring
  · -- recipient row absent: a fresh zero row is inserted first
    have hnone : lookupBalance bs1 r cl = none := by
      unfold containsBalance at hc1
      cases hl : lookupBalance bs1 r cl with
      | none => rfl
      | some w => rw [hl] at hc1; simp at hc1
    have hnotmem : (r, cl) ∉ balKeys bs1 :=
      not_mem_balKeys_of_lookup_none bs1 r cl hnone
    have hins : insertOrIgnoreBalance bs1 r cl 0 = bs1 ++ [⟨r, cl, 0⟩] := by
      unfold insertOrIgnoreBalance
      rw [if_neg (by simpa using hc1)]
    have hcnt_r : countKey (bs1 ++ [⟨r, cl, 0⟩]) r cl = 1 := by
      rw [countKey_append_self, countKey_eq_zero_of_lookup_none bs1 r cl hnone]
    constructor
    · show (balKeys (addToRows (insertOrIgnoreBalance bs1 r cl 0) r cl a)).Nodup
      rw [hins, balKeys_addToRows]
      exact nodup_balKeys_append bs1 r cl 0 hnd1 hnotmem
    · show sumCur (addToRows (insertOrIgnoreBalance bs1 r cl 0) r cl a) cl =
        sumCur db.balances cl
      rw [hins, sumCur_addToRows, hcnt_r, sumCur_append_single, hsum1]
      simp only [if_pos rfl]
      push_cast
      ring
/-- Shared reasoning for the insufficient-funds path of `transfer_currency`:
the whole call is rolled back and reports `false`. -/
lemma transfer_insufficient_aux (db : DB) (payer recipient : Int)
    (amount : Int) (currency : String) (hpos : 0 < amount)
    (hins : balanceOf db payer currency < amount) :
    transfer_currency true db payer recipient amount currency = (false, db) := by
  unfold transfer_currency
  rw [if_neg (not_le.mpr hpos)]
  simp only [Bool.true_eq_false, if_false]
  exact if_pos hins

/-- C1: with a positive amount and the payer's balance in the (normalized)
denomination strictly below it, `transfer_currency` returns `false` and the
store — every balance row, and in fact the whole state — is exactly as it
was before the call. -/
theorem transfer_insufficient_funds_is_noop (db : DB) (payer recipient : Int)
    (amount : Int) (currency : String) (hpos : 0 < amount)
    (hins : balanceOf db payer currency < amount) :
    transfer_currency true db payer recipient amount currency = (false, db) :=
  transfer_insufficient_aux db payer recipient amount currency hpos hins

/-- Witness for C1 at the spec's own example: balance 10, transfer 100. -/
theorem transfer_insufficient_funds_is_noop_witness :
    (0 : Int) < 100 ∧
    balanceOf ⟨[1, 2], [⟨1, "x", 10⟩], []⟩ 1 "x" < 100 ∧
    transfer_currency true ⟨[1, 2], [⟨1, "x", 10⟩], []⟩ 1 2 100 "x" =
      (false, ⟨[1, 2], [⟨1, "x", 10⟩], []⟩) :=
  ⟨by decide, by decide,
    transfer_insufficient_funds_is_noop ⟨[1, 2], [⟨1, "x", 10⟩], []⟩ 1 2 100 "x"
      (by decide) (by decide)⟩

/-- C9: when `get_db_connection()` yields no connection, every ledger and
counter operation returns its documented degraded value with the state
untouched: `get_balance` returns 0, `transfer_currency` returns `false`,
`get_all_command_usage` returns the empty mapping, and
`update_balance` / `track_command_usage` / `reset_all_command_usage`
return without effect. -/
theorem unreachable_store_degraded_values :
    ∀ (db : DB) (u p r a d : Int) (c n : String),
      get_balance false db u c = (0, db) ∧
      transfer_currency false db p r a c = (false, db) ∧
      get_all_command_usage false db = [] ∧
      update_balance false db u c d = db ∧
      track_command_usage false db n = db ∧
      reset_all_command_usage false db = db := by
  intro db u p r a d c n
  refine ⟨rfl, ?_, rfl, rfl, rfl, rfl⟩
  unfold transfer_currency
  split <;> rfl

/-- C4 counterexample: after three `track_command_usage('pay')` calls and a
`reset_all_command_usage()`, the usage mapping does NOT map `"pay"` to 0 —
the row was deleted, so the key is absent. -/
theorem reset_all_drops_pay_key :
    List.lookup "pay"
        (get_all_command_usage true
          (reset_all_command_usage true
            (track_command_usage true
              (track_command_usage true
                (track_command_usage true ⟨[], [], []⟩ "pay") "pay") "pay"))) ≠
      some 0 := by decide

/-- C4 amended: `reset_all_command_usage` runs `DELETE FROM command_usage`,
removing every row rather than zeroing it; `get_all_command_usage`
afterwards returns the empty mapping, with every previously incremented
command name absent. -/
theorem reset_all_deletes_all_rows :
    ∀ db : DB,
      reset_all_command_usage true db = { db with commandUsage := [] } ∧
      get_all_command_usage true (reset_all_command_usage true db) = [] :=
  fun _ => ⟨rfl, rfl⟩

/-- C2 counterexample: the store-level `transfer_currency` does not reject
`payer == recipient` — with sufficient funds a self-transfer returns
`true`, not `false`. -/
theorem self_transfer_store_returns_true :
    (transfer_currency true ⟨[1], [⟨1, "x", 5⟩], []⟩ 1 1 3 "x").1 = true := by decide

/-- C2 amended: `transfer_currency` returns `false` with no state change
whenever `amount <= 0`; `payer == recipient` alone is rejected not by the
store but by the command layer, whose `pay` returns a self-payment error
without touching any balance (the store tolerates self-transfer without
double-applying deltas, see the C10 theorem). -/
theorem transfer_nonpositive_and_self_pay_rejected (conn : Bool) (db : DB)
    (p r amount : Int) (c : String) :
    (amount ≤ 0 → transfer_currency conn db p r amount c = (false, db)) ∧
    (pay conn db p p amount c).1 = PayOutcome.self_payment_error ∧
    (pay conn db p p amount c).2.balances = db.balances := by
  refine ⟨fun h => ?_, ?_, ?_⟩
  · unfold transfer_currency
    exact if_pos h
  · unfold pay
    rw [if_pos rfl]
  · unfold pay
    rw [if_pos rfl]
    unfold track_command_usage
    split <;> rfl

/-- Witness for C2's amended claim at concrete inputs. -/
theorem transfer_nonpositive_and_self_pay_rejected_witness :
    transfer_currency true ⟨[1], [⟨1, "x", 5⟩], []⟩ 1 2 0 "x" =
      (false, ⟨[1], [⟨1, "x", 5⟩], []⟩) ∧
    (pay true ⟨[1], [⟨1, "x", 5⟩], []⟩ 1 1 3 "x").1 = PayOutcome.self_payment_error :=
  ⟨(transfer_nonpositive_and_self_pay_rejected true ⟨[1], [⟨1, "x", 5⟩], []⟩ 1 2 0 "x").1
      (by decide),
    (transfer_nonpositive_and_self_pay_rejected true ⟨[1], [⟨1, "x", 5⟩], []⟩ 1 1 3 "x").2.1⟩

/-- C10: a store-level self-transfer with a positive amount succeeds when
the account's balance in the lower-cased denomination covers the amount,
leaving every balance row unchanged (debit and credit on the same row
cancel); with insufficient balance it returns `false` and changes
nothing. -/
theorem self_transfer_store_semantics (db : DB) (p : Int) (amount : Int)
    (c : String) (hpos : 0 < amount) :
    (amount ≤ balanceOf db p c →
      (transfer_currency true db p p amount c).1 = true ∧
      (transfer_currency true db p p amount c).2.balances = db.balances) ∧
    (balanceOf db p c < amount →
      transfer_currency true db p p amount c = (false, db)) := by
  constructor
  · intro hsuff
    have hcont : containsBalance db.balances p (strLower c) = true := by
      unfold containsBalance
      cases h : lookupBalance db.balances p (strLower c) with
      | none =>
        exfalso
        unfold balanceOf at hsuff
        rw [h] at hsuff
        simp only [Option.getD_none] at hsuff
        omega
      | some a => rfl
    have hcont1 : containsBalance (addToRows db.balances p (strLower c) (-amount))
        p (strLower c) = true := by
      unfold containsBalance
      rw [lookupBalance_addToRows_self]
      unfold containsBalance at hcont
      simpa using hcont
    have hsuff' : ¬((lookupBalance db.balances p (strLower c)).getD 0 < amount) :=
      not_lt.mpr hsuff
    unfold transfer_currency
    rw [if_neg (not_le.mpr hpos)]
    simp only [Bool.true_eq_false, if_false]
    rw [if_neg hsuff']
    refine ⟨rfl, ?_⟩
    show addToRows (insertOrIgnoreBalance (addToRows db.balances p (strLower c) (-amount))
        p (strLower c) 0) p (strLower c) amount = db.balances
    rw [insertOrIgnoreBalance_of_contains _ _ _ _ hcont1, addToRows_cancel]
  · intro hins
    exact transfer_insufficient_aux db p p amount c hpos hins

/-- Witness for C10: both halves at concrete stores. -/
theorem self_transfer_store_semantics_witness :
    ((transfer_currency true ⟨[1], [⟨1, "x", 5⟩], []⟩ 1 1 3 "x").1 = true ∧
      (transfer_currency true ⟨[1], [⟨1, "x", 5⟩], []⟩ 1 1 3 "x").2.balances =
        (⟨[1], [⟨1, "x", 5⟩], []⟩ : DB).balances) ∧
    transfer_currency true ⟨[1], [⟨1, "x", 1⟩], []⟩ 1 1 3 "x" =
      (false, ⟨[1], [⟨1, "x", 1⟩], []⟩) :=
  ⟨(self_transfer_store_semantics ⟨[1], [⟨1, "x", 5⟩], []⟩ 1 3 "x" (by decide)).1 (by decide),
    (self_transfer_store_semantics ⟨[1], [⟨1, "x", 1⟩], []⟩ 1 3 "x" (by decide)).2 (by decide)⟩

/-- C5: `update_balance` and `get_balance` normalize the denomination to
lower case, so an adjustment made under any casing is observed by a read
under any other casing with the same lower-cased form; the value read is
the prior balance at the lower-cased key plus the adjustment (so 5 when
adjusting by 5 from zero). -/
theorem adjust_then_get_case_insensitive (db : DB) (A : Int) (s s' : String)
    (v : Int) (h : strLower s' = strLower s) :
    (get_balance true (update_balance true db A s v) A s').1 =
      (lookupBalance db.balances A (strLower s)).getD 0 + v := by
  unfold get_balance update_balance
  simp only [Bool.true_eq_false, if_false]
  rw [h]
  show (match lookupBalance
      (addToRows (insertOrIgnoreBalance db.balances A (strLower s) 0) A (strLower s) v)
      A (strLower s) with
    | some a => (a, _)
    | none => (0, _)).1 = _
  rw [lookupBalance_addToRows_self, lookupBalance_insertOrIgnore_self]
  simp

/-- Witness for C5 at the spec's example: `adjustBalance(A, "Tokens", 5)`
from zero then `getBalance(A, "tokens")` returns 5. -/
theorem adjust_then_get_case_insensitive_witness :
    strLower "tokens" = strLower "Tokens" ∧
    (get_balance true (update_balance true ⟨[], [], []⟩ 1 "Tokens" 5) 1 "tokens").1 = 5 :=
  ⟨by decide,
    (adjust_then_get_case_insensitive ⟨[], [], []⟩ 1 "Tokens" "tokens" 5 (by decide)).trans
      (by decide)⟩

/-- C6: for an account with no row in the store, `get_balance` returns 0,
creates the account and a zero balance row for the lower-cased
denomination, and a second call with no intervening write returns 0 again
without changing the store at all. -/
theorem get_balance_idempotent_zero_creation (db : DB) (A : Int) (d : String)
    (_hu : A ∉ db.users) (hb : ∀ r ∈ db.balances, r.user_id ≠ A) :
    (get_balance true db A d).1 = 0 ∧
    (get_balance true (get_balance true db A d).2 A d).1 = 0 ∧
    (get_balance true (get_balance true db A d).2 A d).2 = (get_balance true db A d).2 ∧
    A ∈ (get_balance true db A d).2.users ∧
    lookupBalance (get_balance true db A d).2.balances A (strLower d) = some 0 := by
  have h0 : lookupBalance db.balances A (strLower d) = none :=
    lookupBalance_eq_none_of_user_absent db.balances A (strLower d) hb
  have hfirst : get_balance true db A d =
      (0, ⟨insertOrIgnoreUser db.users A, db.balances ++ [⟨A, strLower d, 0⟩],
        db.commandUsage⟩) := by
    unfold get_balance
    simp only [Bool.true_eq_false, if_false]
    rw [show ({ db with users := insertOrIgnoreUser db.users A } : DB).balances =
      db.balances from rfl, h0]
  have hlook : lookupBalance (db.balances ++ [⟨A, strLower d, 0⟩]) A (strLower d) =
      some 0 := lookupBalance_append_absent db.balances A (strLower d) 0 h0
  have hmem : A ∈ insertOrIgnoreUser db.users A := mem_insertOrIgnoreUser_self db.users A
  have hsecond : get_balance true
      (⟨insertOrIgnoreUser db.users A, db.balances ++ [⟨A, strLower d, 0⟩],
        db.commandUsage⟩ : DB) A d =
      (0, ⟨insertOrIgnoreUser db.users A, db.balances ++ [⟨A, strLower d, 0⟩],
        db.commandUsage⟩) := by
    unfold get_balance
    simp only [Bool.true_eq_false, if_false]
    rw [show (insertOrIgnoreUser (insertOrIgnoreUser db.users A) A) =
      insertOrIgnoreUser db.users A from
        insertOrIgnoreUser_of_mem _ _ hmem]
    rw [hlook]
  rw [hfirst]
  rw [show ((0 : Int), (⟨insertOrIgnoreUser db.users A,
      db.balances ++ [⟨A, strLower d, 0⟩], db.commandUsage⟩ : DB)).2 =
    (⟨insertOrIgnoreUser db.users A, db.balances ++ [⟨A, strLower d, 0⟩],
      db.commandUsage⟩ : DB) from rfl]
  rw [hsecond]
  exact ⟨rfl, rfl, rfl, hmem, hlook⟩

/-- Witness for C6 on the empty store. -/
theorem get_balance_idempotent_zero_creation_witness :
    (1 : Int) ∉ ([] : List Int) ∧
    (get_balance true ⟨[], [], []⟩ 1 "x").1 = 0 ∧
    (get_balance true (get_balance true ⟨[], [], []⟩ 1 "x").2 1 "x").1 = 0 ∧
    (get_balance true (get_balance true ⟨[], [], []⟩ 1 "x").2 1 "x").2 =
      (get_balance true ⟨[], [], []⟩ 1 "x").2 :=
  ⟨by decide,
    (get_balance_idempotent_zero_creation ⟨[], [], []⟩ 1 "x" (by decide)
      (by intro r hr; cases hr)).1,
    (get_balance_idempotent_zero_creation ⟨[], [], []⟩ 1 "x" (by decide)
      (by intro r hr; cases hr)).2.1,
    (get_balance_idempotent_zero_creation ⟨[], [], []⟩ 1 "x" (by decide)
      (by intro r hr; cases hr)).2.2.1⟩

/-- C3: for any well-formed store and any sequence of `transfer_currency`
calls in one denomination that all return `true`, the total of all balances
in that denomination is the same after the sequence as before it. -/
theorem transfer_sequence_conserves_total (c : String)
    (reqs : List (Int × Int × Int)) (db db' : DB) (hWF : db.WF)
    (h : applyTransfers db c reqs = some db') :
    sumCur db'.balances (strLower c) = sumCur db.balances (strLower c) := by
  induction reqs generalizing db with
  | nil =>
    unfold applyTransfers at h
    cases h
    rfl
  | cons t rest ih =>
    obtain ⟨p, r, a⟩ := t
    unfold applyTransfers at h
    cases hres : transfer_currency true db p r a c with
    | mk success db2 =>
      rw [hres] at h
      cases success with
      | false => simp at h
      | true =>
        simp only [if_pos] at h
        obtain ⟨hWF2, hsum⟩ := transfer_success_aux db p r a c db2 hWF hres
        rw [ih db2 hWF2 h, hsum]

/-- Witness for C3: one successful transfer of 3 between two funded
accounts keeps the total at 5. -/
theorem transfer_sequence_conserves_total_witness :
    (⟨[1, 2], [⟨1, "x", 5⟩, ⟨2, "x", 0⟩], []⟩ : DB).WF ∧
    applyTransfers ⟨[1, 2], [⟨1, "x", 5⟩, ⟨2, "x", 0⟩], []⟩ "x" [(1, 2, 3)] =
      some ⟨[1, 2], [⟨1, "x", 2⟩, ⟨2, "x", 3⟩], []⟩ ∧
    sumCur ([⟨1, "x", 2⟩, ⟨2, "x", 3⟩] : List BalRow) (strLower "x") =
      sumCur ([⟨1, "x", 5⟩, ⟨2, "x", 0⟩] : List BalRow) (strLower "x") :=
  ⟨by decide, by decide,
    transfer_sequence_conserves_total "x" [(1, 2, 3)]
      ⟨[1, 2], [⟨1, "x", 5⟩, ⟨2, "x", 0⟩], []⟩
      ⟨[1, 2], [⟨1, "x", 2⟩, ⟨2, "x", 3⟩], []⟩ (by decide) (by decide)⟩

@[simp] lemma dictGet_nil (k : String) : dictGet [] k = none := rfl

@[simp] lemma dictGet_cons (p : String × ConfigValue) (rest : ConfigDict) (k : String) :
    dictGet (p :: rest) k = if p.1 = k then some p.2 else dictGet rest k := rfl

lemma dictGet_dictInsert (m : ConfigDict) (k : String) (v : ConfigValue) (q : String) :
    dictGet (dictInsert m k v) q = if k = q then some v else dictGet m q := by
  induction m with
  | nil => rfl
  | cons p rest ih =>
    obtain ⟨k0, v0⟩ := p
    rw [show dictInsert ((k0, v0) :: rest) k v =
      if k0 = k then (k0, v) :: rest else (k0, v0) :: dictInsert rest k v from rfl]
    by_cases h0 : k0 = k
    · subst h0
      rw [if_pos rfl, dictGet_cons, dictGet_cons]
      by_cases hq : k0 = q
      · simp [hq]
      · simp [hq]
    · rw [if_neg h0, dictGet_cons, dictGet_cons]
      by_cases hq : k0 = q
      · rw [if_pos hq, if_pos hq,
          if_neg fun hkq : k = q => h0 (hq.trans hkq.symm)]
      · rw [if_neg hq, if_neg hq, ih]

lemma dictGet_merge (defaults : ConfigDict) (cfg : ConfigDict) (k : String) :
    dictGet (defaults.foldl
        (fun c kv => if dictContains c kv.1 then c else dictInsert c kv.1 kv.2) cfg) k =
      (dictGet cfg k).or (dictGet defaults k) := by
  induction defaults generalizing cfg with
  | nil => simp [Option.or_none]
  | cons d ds ih =>
    rw [List.foldl_cons, ih]
    by_cases hc : dictContains cfg d.1 = true
    · rw [if_pos hc]
      by_cases hk : d.1 = k
      · obtain ⟨x, hx⟩ : ∃ x, dictGet cfg k = some x := by
          unfold dictContains at hc
          rw [hk] at hc
          cases hg : dictGet cfg k with
          | none => rw [hg] at hc; simp at hc
          | some x => exact ⟨x, rfl⟩
        rw [hx]
        simp
      · rw [dictGet_cons, if_neg hk]
    · rw [if_neg hc]
      by_cases hk : d.1 = k
      · have hg : dictGet cfg k = none := by
          unfold dictContains at hc
          rw [hk] at hc
          cases hg : dictGet cfg k with
          | none => rfl
          | some x => rw [hg] at hc; simp at hc
        rw [dictGet_dictInsert, if_pos hk, hg, dictGet_cons, if_pos hk]
        simp
      · rw [dictGet_dictInsert, if_neg hk, dictGet_cons, if_neg hk]


/-- C7: when the config file is absent or unparsable the resolver returns
the compiled defaults verbatim; when it parses, every key present in the
file keeps its file value and every key the file omits is filled from the
defaults (`Option.or` of the two lookups) — provided, as `default_config`
guarantees, the defaults contain the footer-icon key whose fallback
assignment is replayed after the merge. -/
theorem load_config_merge_spec (defaults : ConfigDict) (env : String)
    (hfooter : dictContains defaults "footer_icon_url" = true) :
    load_config defaults none env = defaults ∧
    ∀ cfg k, dictGet (load_config defaults (some cfg) env) k =
      (dictGet cfg k).or (dictGet defaults k) := by
  refine ⟨rfl, fun cfg k => ?_⟩
  simp only [load_config]
  have hmerge : ∀ q, dictGet (defaults.foldl
      (fun c kv => if dictContains c kv.1 then c else dictInsert c kv.1 kv.2) cfg) q =
      (dictGet cfg q).or (dictGet defaults q) := fun q => dictGet_merge defaults cfg q
  obtain ⟨w, hw⟩ : ∃ w, dictGet (defaults.foldl
      (fun c kv => if dictContains c kv.1 then c else dictInsert c kv.1 kv.2) cfg)
      "footer_icon_url" = some w := by
    rw [hmerge]
    cases hg : dictGet cfg "footer_icon_url" with
    | some x => exact ⟨x, by simp⟩
    | none =>
      unfold dictContains at hfooter
      cases hd : dictGet defaults "footer_icon_url" with
      | none => rw [hd] at hfooter; simp at hfooter
      | some y => exact ⟨y, by simp⟩
  rw [dictGet_dictInsert]
  by_cases hk : "footer_icon_url" = k
  · subst hk
    rw [if_pos rfl, hw]
    simp only [Option.getD_some]
    rw [← hmerge]
    exact hw.symm
  · rw [if_neg hk, hmerge]

/-- Witness for C7 on the spec's example: defaults with
`color = "0xCCCCCC"`, file `{color: "blue"}`. -/
theorem load_config_merge_spec_witness :
    dictContains (default_config "central_bank" "") "footer_icon_url" = true ∧
    load_config (default_config "central_bank" "") none "" =
      default_config "central_bank" "" ∧
    dictGet (load_config (default_config "central_bank" "")
        (some [("color", ConfigValue.str "blue")]) "") "color" =
      (dictGet [("color", ConfigValue.str "blue")] "color").or
        (dictGet (default_config "central_bank" "") "color") :=
  ⟨by decide,
    (load_config_merge_spec (default_config "central_bank" "") "" (by decide)).1,
    (load_config_merge_spec (default_config "central_bank" "") "" (by decide)).2
      [("color", ConfigValue.str "blue")] "color"⟩

/-- Whether a recorded outcome is a successful load. -/
def isLoadedOutcome : String × LoadStatus → Bool
  | (_, .loaded) => true
  | (_, .failed _) => false

lemma processEntry_eq (load_extension : String → Except String Unit)
    (acc : List (String × LoadStatus) × Nat) (e : DirEntry) :
    processEntry load_extension acc e =
      if eligibleEntry e then
        (acc.1 ++ [loadOutcome load_extension e],
          acc.2 + (if isLoadedOutcome (loadOutcome load_extension e) then 1 else 0))
      else acc := by
  unfold processEntry eligibleEntry loadOutcome statusOf
  cases hl : load_extension e.name with
  | ok u =>
    by_cases h1 : (e.isDir && !(e.name.startsWith "__")) = true <;>
      by_cases h2 : excluded_cogs.contains e.name = true <;>
      simp_all [isLoadedOutcome]
  | error msg =>
    by_cases h1 : (e.isDir && !(e.name.startsWith "__")) = true <;>
      by_cases h2 : excluded_cogs.contains e.name = true <;>
      simp_all [isLoadedOutcome]

lemma foldl_processEntry (load_extension : String → Except String Unit)
    (l : List DirEntry) :
    ∀ acc : List (String × LoadStatus) × Nat,
      l.foldl (processEntry load_extension) acc =
        (acc.1 ++ (l.filter eligibleEntry).map (loadOutcome load_extension),
          acc.2 + ((l.filter eligibleEntry).map (loadOutcome load_extension)).countP
            isLoadedOutcome) := by
  induction l with
  | nil => intro acc; simp
  | cons e l ih =>
    intro acc
    rw [List.foldl_cons, processEntry_eq]
    by_cases helig : eligibleEntry e = true
    · rw [if_pos helig, ih, List.filter_cons_of_pos helig, List.map_cons,
        List.countP_cons]
      refine Prod.ext ?_ ?_
      · simp [List.append_assoc]
      · show _ + _ + _ = _ + (_ + _)
        by_cases hL : isLoadedOutcome (loadOutcome load_extension e) = true
        · simp only [hL, if_pos rfl]
          omega
        · rw [Bool.not_eq_true] at hL
          simp only [hL]
          simp
    · rw [if_neg helig, ih, List.filter_cons_of_neg (by simp [helig])]

/-- C8: `load_all_cogs` records exactly one outcome per eligible entry
(directories, non-dunder, not statically excluded), in lexicographic order
of entry names, each outcome determined solely by that module's own load
result — so a failing module is recorded as failed and every other module
is still processed — and the returned count is the number of successful
loads.  The loop is a total function: it never propagates a module's
exception. -/
theorem load_all_cogs_spec (entries : List DirEntry)
    (load_extension : String → Except String Unit) :
    (load_all_cogs entries load_extension).1 =
      ((List.insertionSort entryLE entries).filter eligibleEntry).map
        (loadOutcome load_extension) ∧
    List.Sorted (fun q q' : String × LoadStatus => q.1 ≤ q'.1)
      (load_all_cogs entries load_extension).1 ∧
    (load_all_cogs entries load_extension).2 =
      ((load_all_cogs entries load_extension).1.countP isLoadedOutcome) := by
  have hfold := foldl_processEntry load_extension
    (List.insertionSort entryLE entries) ([], 0)
  have h1 : (load_all_cogs entries load_extension).1 =
      ((List.insertionSort entryLE entries).filter eligibleEntry).map
        (loadOutcome load_extension) := by
    unfold load_all_cogs
    rw [hfold]
    simp
  refine ⟨h1, ?_, ?_⟩
  · rw [h1]
    have hsorted : List.Sorted entryLE (List.insertionSort entryLE entries) :=
      List.sorted_insertionSort entryLE entries
    have hfiltered : List.Sorted entryLE
        ((List.insertionSort entryLE entries).filter eligibleEntry) :=
      List.Pairwise.sublist (List.filter_sublist _) hsorted
    exact List.Pairwise.map (loadOutcome load_extension)
      (fun a b hab => hab) hfiltered
  · rw [h1]
    unfold load_all_cogs
    rw [hfold]
    simp
